import Mathlib

/-!
Verification development for the Steering Control Unit (SCU) OPC-UA client of
the SKA-Mid dish qualification (DiSQ) repository.

The SCU client library itself (node-tree scan and cache, authority arbiter
client, subscription manager, command dispatcher, data logger) is not shipped
inside this repository checkout: only its documentation (`docs/src/api/sculib.rst`,
the GUI how-to pages) and the CHANGELOG describing its behaviour are present.
All operational definitions below are therefore modelled from the specification
and those documents, and each carries a doc comment saying exactly which missing
component it models.
-/

namespace DiSQ

/-- Modelled from the spec: the OPC-UA node classes distinguished by the SCU
node registry (missing module: the SCU library's node-tree scan). -/
inductive NodeClass where
  | variable_
  | method
  | object
deriving DecidableEq, Repr

/-- Modelled from the spec: one discovered OPC-UA node as held by the SCU node
registry (missing module: the SCU library's node-tree scan). The fully
qualified dotted path is the unique key; `parentPath` is a back-reference. -/
structure NodeDescriptor where
  path : String
  nodeId : Nat
  nodeClass : NodeClass
  dataType : String
  writable : Bool
  parentPath : String
deriving DecidableEq, Repr

/-- Modelled from the spec: what the server reports for one node when browsed
(missing module: the OPC-UA transport used by the SCU library). -/
structure ServerNode where
  nodeId : Nat
  nodeClass : NodeClass
  dataType : String
  writable : Bool
deriving DecidableEq, Repr

/-- Modelled from the spec: a pure view of the OPC-UA server consumed by the
SCU client (missing module: the OPC-UA transport session). `info` is a browse
of a single path, `children` lists the child browse names of a path, and
`serverVersion` is the value of the well-known version-bearing node. -/
structure Server where
  info : String → Option ServerNode
  children : String → List String
  serverVersion : Option (Nat × Nat × Nat)

/-- Modelled from the spec: depth-first recursive browse of the server tree
from a path, producing registry entries in discovery order (missing module:
the SCU library's scan of all nodes below the root). A node whose browse
fails is skipped together with its subtree (fail-soft). `fuel` bounds the
recursion depth. -/
def scanFrom (srv : Server) : Nat → String → String → List NodeDescriptor
  | 0, _, _ => []
  | fuel + 1, parentPath, path =>
    match srv.info path with
    | none => []
    | some ni =>
      { path := path, nodeId := ni.nodeId, nodeClass := ni.nodeClass,
        dataType := ni.dataType, writable := ni.writable, parentPath := parentPath } ::
      ((srv.children path).map fun c => scanFrom srv fuel path (path ++ "." ++ c)).flatten

/-- Modelled from the spec: `Scan(root)` builds the registry by depth-first
traversal from the well-known root path; the root descriptor is inserted
first and is recorded with itself as parent (it is the traversal seed). -/
def scan (srv : Server) (fuel : Nat) (root : String) : List NodeDescriptor :=
  scanFrom srv fuel root root

/-- In an insertion-ordered registry, checks that every entry's parent path is
among the paths already seen when the entry is inserted (`seen` is the set of
paths available before the first entry). -/
def parentsPrecede : List String → List NodeDescriptor → Bool
  | _, [] => true
  | seen, d :: rest => (decide (d.parentPath ∈ seen)) && parentsPrecede (d.path :: seen) rest

/-- Paths accumulated onto `seen` after inserting all entries of a list. -/
def seenAfter (L : List NodeDescriptor) (seen : List String) : List String :=
  L.foldl (fun s d => d.path :: s) seen

theorem seenAfter_cons (d : NodeDescriptor) (L : List NodeDescriptor) (seen : List String) :
    seenAfter (d :: L) seen = seenAfter L (d.path :: seen) := rfl

theorem mem_seenAfter (x : String) (L : List NodeDescriptor) (seen : List String)
    (hx : x ∈ seen) : x ∈ seenAfter L seen := by
  induction L generalizing seen with
  | nil => exact hx
  | cons d t ih => exact ih (d.path :: seen) (List.mem_cons_of_mem _ hx)

theorem parentsPrecede_append (L1 L2 : List NodeDescriptor) : ∀ seen : List String,
    parentsPrecede seen (L1 ++ L2) =
      (parentsPrecede seen L1 && parentsPrecede (seenAfter L1 seen) L2) := by
  induction L1 with
  | nil => intro seen; simp [parentsPrecede, seenAfter]
  | cons d t ih =>
    intro seen
    simp only [List.cons_append, parentsPrecede, List.append_eq, seenAfter_cons, ih, Bool.and_assoc]

theorem parentsPrecede_mono : ∀ (L : List NodeDescriptor) (seen seen' : List String),
    (∀ x ∈ seen, x ∈ seen') →
    parentsPrecede seen L = true → parentsPrecede seen' L = true := by
  intro L
  induction L with
  | nil => intro seen seen' _ _; rfl
  | cons d t ih =>
    intro seen seen' hsub h
    simp only [parentsPrecede, Bool.and_eq_true, decide_eq_true_eq] at h ⊢
    refine ⟨hsub _ h.1, ih (d.path :: seen) (d.path :: seen') ?_ h.2⟩
    intro x hx
    rcases List.mem_cons.mp hx with h1 | h2
    · exact h1 ▸ List.mem_cons_self _ _
    · exact List.mem_cons_of_mem _ (hsub _ h2)

theorem parentsPrecede_join (f : String → List NodeDescriptor) (p : String)
    (hf : ∀ c seen, p ∈ seen → parentsPrecede seen (f c) = true) :
    ∀ (cs : List String) (seen : List String), p ∈ seen →
      parentsPrecede seen ((cs.map f).flatten) = true := by
  intro cs
  induction cs with
  | nil => intro seen _; rfl
  | cons c t ih =>
    intro seen hp
    simp only [List.map_cons, List.flatten_cons]
    rw [parentsPrecede_append]
    refine Bool.and_eq_true_iff.mpr ⟨hf c seen hp, ?_⟩
    exact ih (seenAfter (f c) seen) (mem_seenAfter p (f c) seen hp)

theorem parentsPrecede_scanFrom (srv : Server) : ∀ (fuel : Nat) (parentPath path : String)
    (seen : List String), parentPath ∈ seen →
    parentsPrecede seen (scanFrom srv fuel parentPath path) = true := by
  intro fuel
  induction fuel with
  | zero => intro _ _ _ _; rfl
  | succ n ih =>
    intro parentPath path seen hp
    show parentsPrecede seen (scanFrom srv (n + 1) parentPath path) = true
    rw [scanFrom]
    cases h : srv.info path with
    | none => rfl
    | some ni =>
      simp only [parentsPrecede, Bool.and_eq_true, decide_eq_true_eq]
      refine ⟨hp, ?_⟩
      exact parentsPrecede_join (fun c => scanFrom srv n path (path ++ "." ++ c)) path
        (fun c seen' hp' => ih path (path ++ "." ++ c) seen' hp')
        (srv.children path) (path :: seen) (List.mem_cons_self _ _)

theorem parentsPrecede_parent_mem : ∀ (L : List NodeDescriptor) (seen : List String),
    parentsPrecede seen L = true →
    ∀ d ∈ L, d.parentPath ∈ seen ∨ d.parentPath ∈ L.map NodeDescriptor.path := by
  intro L
  induction L with
  | nil => intro _ _ d hd; cases hd
  | cons e t ih =>
    intro seen h d hd
    simp only [parentsPrecede, Bool.and_eq_true, decide_eq_true_eq] at h
    rcases List.mem_cons.mp hd with rfl | hdt
    · exact Or.inl h.1
    · rcases ih (e.path :: seen) h.2 d hdt with hseen | hpaths
      · rcases List.mem_cons.mp hseen with h1 | h2
        · exact Or.inr (by simp [h1])
        · exact Or.inl h2
      · exact Or.inr (List.mem_map.mp hpaths |>.elim fun x hx =>
          List.mem_map.mpr ⟨x, List.mem_cons_of_mem _ hx.1, hx.2⟩)

theorem scanFrom_head_path (srv : Server) (fuel : Nat) (parentPath path : String) :
    scanFrom srv fuel parentPath path = [] ∨
    ∃ t, (scanFrom srv fuel parentPath path).map NodeDescriptor.path = path :: t := by
  cases fuel with
  | zero => exact Or.inl rfl
  | succ n =>
    rw [scanFrom]
    cases h : srv.info path with
    | none => exact Or.inl rfl
    | some ni => exact Or.inr ⟨_, rfl⟩

/-- C5: every registry produced by a completed scan is tree well-formed: each
entry's parent path is a key present in the registry, and the insertion order
check `parentsPrecede` certifies that each entry's parent path was already
available (root seed, or inserted earlier) at the moment the entry was
inserted. The root descriptor heads the registry and is its own parent. -/
theorem c5_scan_tree_wellFormed (srv : Server) (fuel : Nat) (root : String) :
    parentsPrecede [root] (scan srv fuel root) = true ∧
    ∀ d ∈ scan srv fuel root,
      d.parentPath ∈ (scan srv fuel root).map NodeDescriptor.path := by
  have hpp : parentsPrecede [root] (scan srv fuel root) = true :=
    parentsPrecede_scanFrom srv fuel root root [root] (List.mem_cons_self _ _)
  refine ⟨hpp, ?_⟩
  intro d hd
  rcases parentsPrecede_parent_mem (scan srv fuel root) [root] hpp d hd with hseen | hpaths
  · have hroot : d.parentPath = root := by
      simpa using hseen
    rcases scanFrom_head_path srv fuel root root with hemp | ⟨t, ht⟩
    · rw [scan] at hd; rw [hemp] at hd; cases hd
    · rw [scan, ht, hroot]; exact List.mem_cons_self _ _
  · exact hpaths

/-- Demonstration server used by witnesses: a three-level tree rooted at
path R with children a and b, where a has one child c. -/
def demoServer : Server where
  info := fun p =>
    if p = "R" then some ⟨0, NodeClass.object, "", false⟩
    else if p = "R.a" then some ⟨1, NodeClass.object, "", false⟩
    else if p = "R.b" then some ⟨2, NodeClass.variable_, "Double", true⟩
    else if p = "R.a.c" then some ⟨3, NodeClass.method, "", false⟩
    else none
  children := fun p =>
    if p = "R" then ["a", "b"]
    else if p = "R.a" then ["c"]
    else []
  serverVersion := some (3, 2, 3)

theorem c5_scan_tree_wellFormed_witness :
    (⟨"R.a.c", 3, NodeClass.method, "", false, "R.a"⟩ : NodeDescriptor) ∈ scan demoServer 4 "R" ∧
    ("R.a" : String) ∈ (scan demoServer 4 "R").map NodeDescriptor.path :=
  ⟨by decide, (c5_scan_tree_wellFormed demoServer 4 "R").2
    ⟨"R.a.c", 3, NodeClass.method, "", false, "R.a"⟩ (by decide)⟩

/-- Modelled from the spec: the connection fingerprint (address, endpoint,
namespace) that keys the on-disk node-ID cache and validates cache
applicability (missing module: the SCU library's node-ID cache). -/
structure Fingerprint where
  address : String
  endpointUrl : String
  namespaceUri : String
deriving DecidableEq, Repr

/-- Modelled from the spec: one serialized registry row of the JSON node-ID
cache file. `extraFields` stands for unknown additional fields, which a
forward-compatible reader must ignore. -/
structure CacheEntry where
  path : String
  nodeId : Nat
  nodeClass : NodeClass
  dataType : String
  writable : Bool
  parentPath : String
  extraFields : List (String × String)
deriving DecidableEq, Repr

/-- Modelled from the spec: the on-disk node-ID cache file written after a
full scan, keyed by the connection fingerprint. -/
structure CacheFile where
  fingerprint : Fingerprint
  entries : List CacheEntry
deriving DecidableEq, Repr

/-- Serialization of one registry descriptor into a cache row. -/
def serializeNode (d : NodeDescriptor) : CacheEntry :=
  ⟨d.path, d.nodeId, d.nodeClass, d.dataType, d.writable, d.parentPath, []⟩

/-- Deserialization of one cache row back into a registry descriptor; unknown
extra fields are ignored (forward compatibility). -/
def deserializeNode (e : CacheEntry) : NodeDescriptor :=
  ⟨e.path, e.nodeId, e.nodeClass, e.dataType, e.writable, e.parentPath⟩

/-- Modelled from the spec: `SaveCache(registry, fingerprint)` serializes the
whole registry under the given fingerprint (missing module: the SCU library's
cache writer, CHANGELOG 0.4.0 node-ID cache to JSON). -/
def saveNodeCache (reg : List NodeDescriptor) (fp : Fingerprint) : CacheFile :=
  ⟨fp, reg.map serializeNode⟩

/-- Modelled from the spec: `LoadCache(fingerprint)` returns the cached
registry when the file's fingerprint matches the connection fingerprint, and
a cache miss (`none`) otherwise. -/
def loadNodeCache (file : CacheFile) (fp : Fingerprint) : Option (List NodeDescriptor) :=
  if file.fingerprint = fp then some (file.entries.map deserializeNode) else none

theorem deserialize_serialize (d : NodeDescriptor) : deserializeNode (serializeNode d) = d := rfl

/-- C4: saving the registry produced by a scan and loading it back with the
same connection fingerprint is a cache hit that yields a registry with
identical node paths and node classes (in fact the identical registry). -/
theorem c4_cache_roundTrip (srv : Server) (fuel : Nat) (root : String) (fp : Fingerprint) :
    ∃ reg', loadNodeCache (saveNodeCache (scan srv fuel root) fp) fp = some reg' ∧
      reg'.map NodeDescriptor.path = (scan srv fuel root).map NodeDescriptor.path ∧
      reg'.map NodeDescriptor.nodeClass = (scan srv fuel root).map NodeDescriptor.nodeClass := by
  refine ⟨scan srv fuel root, ?_, rfl, rfl⟩
  have h : deserializeNode ∘ serializeNode = id := funext deserialize_serialize
  simp [loadNodeCache, saveNodeCache, List.map_map, h]

/-- Modelled from the spec: the documented minimum compatible server version;
CHANGELOG 0.4.0 states only v3.2.3 and up is compatible. -/
def minCompatibleVersion : Nat × Nat × Nat := (3, 2, 3)

/-- Lexicographic comparison of (major, minor, patch) software versions. -/
def versionLt (a b : Nat × Nat × Nat) : Bool :=
  decide (a.1 < b.1) ||
    (decide (a.1 = b.1) &&
      (decide (a.2.1 < b.2.1) || (decide (a.2.1 = b.2.1) && decide (a.2.2 < b.2.2))))

/-- Modelled from the spec: the outcome of connecting the SCU client to a
server (missing module: the SCU library's connection setup). -/
inductive ConnectOutcome where
  | connected (registry : List NodeDescriptor)
  | incompatibleServerError (msg : String)
  | connectionError (msg : String)
deriving DecidableEq, Repr

/-- Trace of the paths browsed by a depth-first scan from a path; empty when
no browse of the tree happens at all. -/
def browsedPaths (srv : Server) : Nat → String → List String
  | 0, _ => []
  | fuel + 1, path =>
    match srv.info path with
    | none => [path]
    | some _ =>
      path :: ((srv.children path).map fun c => browsedPaths srv fuel (path ++ "." ++ c)).flatten

/-- Modelled from the spec: connection sequence of the SCU client. It first
reads the well-known version-bearing node; a version below the minimum
compatibility threshold fails fast with an incompatible-server error and
performs no browse of the tree; otherwise the full scan runs. The second
component is the trace of browsed paths. -/
def connectAndScan (srv : Server) (fuel : Nat) (root : String) :
    ConnectOutcome × List String :=
  match srv.serverVersion with
  | none => (ConnectOutcome.connectionError "failed to read server version node", [])
  | some v =>
    if versionLt v minCompatibleVersion then
      (ConnectOutcome.incompatibleServerError
        "server version is below the minimum compatible version", [])
    else
      (ConnectOutcome.connected (scan srv fuel root), browsedPaths srv fuel root)

/-- C6: connecting to a server whose advertised version is below the minimum
compatibility threshold fails fast with an incompatible-server error, and the
browse trace is empty: no scan of the tree is performed. -/
theorem c6_incompatible_server_fails_fast (srv : Server) (fuel : Nat) (root : String)
    (v : Nat × Nat × Nat) (hv : srv.serverVersion = some v)
    (hlt : versionLt v minCompatibleVersion = true) :
    connectAndScan srv fuel root =
      (ConnectOutcome.incompatibleServerError
        "server version is below the minimum compatible version", []) := by
  simp [connectAndScan, hv, hlt]

/-- Demonstration server advertising version 3.2.2, one below the documented
minimum compatible version 3.2.3. -/
def oldVersionServer : Server where
  info := demoServer.info
  children := demoServer.children
  serverVersion := some (3, 2, 2)

theorem c6_incompatible_server_fails_fast_witness :
    oldVersionServer.serverVersion = some (3, 2, 2) ∧
    versionLt (3, 2, 2) minCompatibleVersion = true ∧
    connectAndScan oldVersionServer 4 "R" =
      (ConnectOutcome.incompatibleServerError
        "server version is below the minimum compatible version", []) :=
  ⟨rfl, by decide,
    c6_incompatible_server_fails_fast oldVersionServer 4 "R" (3, 2, 2) rfl (by decide)⟩

/-- Modelled from the spec: a user role that may request command authority,
with its arbitration priority level (missing module: the SCU library's
authority arbiter client and the server-side arbitration slot). -/
structure UserRole where
  name : String
  priority : Nat
deriving DecidableEq, Repr

/-- Modelled from the spec: the result code returned by the server's
take/release-authority arbitration primitive. -/
inductive AuthResult where
  | commandDone
  | authorityRejected
deriving DecidableEq, Repr

/-- Modelled from the spec: the server-side single global authority slot;
`holder` is the session id and role currently holding authority, if any. -/
structure ArbiterState where
  holder : Option (Nat × UserRole)
deriving DecidableEq, Repr

/-- Modelled from the spec: the server-side arbitration primitive for
`TakeAuthority(role)`. A request with priority equal to or higher than the
current holder's supersedes it; a strictly lower priority is rejected and the
slot is unchanged. Returns the (result code, message) pair and the new slot. -/
def serverTakeAuthority (s : ArbiterState) (sid : Nat) (r : UserRole) :
    (AuthResult × String) × ArbiterState :=
  match s.holder with
  | none => ((AuthResult.commandDone, "authority granted"), ⟨some (sid, r)⟩)
  | some (_, cur) =>
    if cur.priority ≤ r.priority then
      ((AuthResult.commandDone, "authority superseded"), ⟨some (sid, r)⟩)
    else
      ((AuthResult.authorityRejected, "requested role has lower priority than current holder"), s)

/-- Modelled from the spec: the SCU client's `take_authority` method; it
forwards the request and returns the server's (result code, message) pair
verbatim to the caller, never swallowing a rejection. -/
def take_authority (s : ArbiterState) (sid : Nat) (r : UserRole) :
    (AuthResult × String) × ArbiterState :=
  serverTakeAuthority s sid r

/-- Modelled from the spec: `CurrentAuthority()` reports the role currently
believed to hold authority. -/
def currentAuthority (s : ArbiterState) : Option UserRole := s.holder.map Prod.snd

/-- C1: while a session holds authority, a `TakeAuthority(role)` request with
equal or higher priority succeeds and `CurrentAuthority()` afterwards reflects
the new role; a request with strictly lower priority returns the server's
AuthorityRejected result code verbatim to the caller and leaves the authority
holder unchanged. -/
theorem c1_take_authority_priority (s : ArbiterState) (sid sid' : Nat) (cur r : UserRole)
    (hheld : s.holder = some (sid', cur)) :
    (cur.priority ≤ r.priority →
      (take_authority s sid r).1.1 = AuthResult.commandDone ∧
      currentAuthority (take_authority s sid r).2 = some r) ∧
    (r.priority < cur.priority →
      (take_authority s sid r).1.1 = AuthResult.authorityRejected ∧
      (take_authority s sid r).1 = (serverTakeAuthority s sid r).1 ∧
      (take_authority s sid r).2 = s) := by
  constructor
  · intro hle
    simp [take_authority, serverTakeAuthority, hheld, hle, currentAuthority]
  · intro hlt
    have hnle : ¬cur.priority ≤ r.priority := Nat.not_le.mpr hlt
    simp [take_authority, serverTakeAuthority, hheld, hnle]

theorem c1_take_authority_priority_witness :
    ((take_authority ⟨some (1, ⟨"LMC", 2⟩)⟩ 2 ⟨"EGUI", 2⟩).1.1 = AuthResult.commandDone ∧
      currentAuthority (take_authority ⟨some (1, ⟨"LMC", 2⟩)⟩ 2 ⟨"EGUI", 2⟩).2 =
        some ⟨"EGUI", 2⟩) ∧
    ((take_authority ⟨some (1, ⟨"LMC", 2⟩)⟩ 3 ⟨"Operator", 1⟩).1.1 =
        AuthResult.authorityRejected ∧
      (take_authority ⟨some (1, ⟨"LMC", 2⟩)⟩ 3 ⟨"Operator", 1⟩).1 =
        (serverTakeAuthority ⟨some (1, ⟨"LMC", 2⟩)⟩ 3 ⟨"Operator", 1⟩).1 ∧
      (take_authority ⟨some (1, ⟨"LMC", 2⟩)⟩ 3 ⟨"Operator", 1⟩).2 =
        ⟨some (1, ⟨"LMC", 2⟩)⟩) :=
  ⟨(c1_take_authority_priority ⟨some (1, ⟨"LMC", 2⟩)⟩ 2 1 ⟨"LMC", 2⟩ ⟨"EGUI", 2⟩ rfl).1
      (by decide),
   (c1_take_authority_priority ⟨some (1, ⟨"LMC", 2⟩)⟩ 3 1 ⟨"LMC", 2⟩ ⟨"Operator", 1⟩ rfl).2
      (by decide)⟩

/-- Modelled from the spec: kinds of client teardown (missing module: the SCU
library's `disconnect_and_cleanup` and the GUI's fault hook). -/
inductive TeardownKind where
  | normalClose
  | forcedDisconnect
  | unhandledFault
deriving DecidableEq, Repr

/-- Modelled from the spec: a transport-level failure of an OPC-UA call. -/
inductive TransportFault where
  | connectionLost
deriving DecidableEq, Repr

/-- Modelled from the spec: local state of one SCU client instance relevant to
teardown. -/
structure ClientState where
  connectionAlive : Bool
  holdsAuthority : Bool
deriving DecidableEq, Repr

/-- Modelled from the spec: the release-authority RPC, which fails when the
connection is already dead. -/
def releaseAuthorityCall (st : ClientState) : Except TransportFault (AuthResult × String) :=
  if st.connectionAlive then Except.ok (AuthResult.commandDone, "authority released")
  else Except.error TransportFault.connectionLost

/-- Report of what a teardown did: whether a release of authority was
attempted, whether it succeeded, and the messages logged. -/
structure TeardownReport where
  releaseAttempted : Bool
  releaseSucceeded : Bool
  loggedMessages : List String
deriving DecidableEq, Repr

/-- Log line emitted when the best-effort release of authority fails. -/
def releaseFailureMsg : String :=
  "failed to release authority: connection lost; server will expire it"

/-- Extra log line for the unhandled-fault teardown path. -/
def faultLog : TeardownKind → List String
  | TeardownKind.unhandledFault => ["unhandled fault: running teardown cleanup"]
  | _ => []

/-- Modelled from the spec: client teardown (CHANGELOG 0.4.0 automatic
authority release on disconnect). When this client holds authority, a release
is attempted; a failing release is caught and logged, and the cleanup still
returns normally (`Except.ok`) — no exception reaches the caller. -/
def disconnectAndCleanup (st : ClientState) (k : TeardownKind) :
    Except TransportFault (ClientState × TeardownReport) :=
  if st.holdsAuthority then
    match releaseAuthorityCall st with
    | Except.ok _ =>
      Except.ok (⟨false, false⟩, ⟨true, true, faultLog k⟩)
    | Except.error _ =>
      Except.ok (⟨false, false⟩, ⟨true, false, faultLog k ++ [releaseFailureMsg]⟩)
  else Except.ok (⟨false, false⟩, ⟨false, false, faultLog k⟩)

/-- C7: on every teardown kind while this client holds authority, a release of
authority is attempted; if the release fails the failure is logged; and the
cleanup always returns normally (no exception is raised to the caller). -/
theorem c7_teardown_releases_authority (st : ClientState) (k : TeardownKind)
    (h : st.holdsAuthority = true) :
    ∃ st' rep, disconnectAndCleanup st k = Except.ok (st', rep) ∧
      rep.releaseAttempted = true ∧
      (rep.releaseSucceeded = false → releaseFailureMsg ∈ rep.loggedMessages) ∧
      st'.holdsAuthority = false := by
  cases hc : st.connectionAlive with
  | true =>
    refine ⟨⟨false, false⟩, ⟨true, true, faultLog k⟩, ?_, rfl, ?_, rfl⟩
    · simp [disconnectAndCleanup, releaseAuthorityCall, h, hc]
    · intro hfail; cases hfail
  | false =>
    refine ⟨⟨false, false⟩, ⟨true, false, faultLog k ++ [releaseFailureMsg]⟩, ?_, rfl, ?_, rfl⟩
    · simp [disconnectAndCleanup, releaseAuthorityCall, h, hc]
    · intro _; exact List.mem_append_right _ (List.mem_cons_self _ _)

theorem c7_teardown_releases_authority_witness :
    ∃ st' rep,
      disconnectAndCleanup ⟨false, true⟩ TeardownKind.forcedDisconnect =
        Except.ok (st', rep) ∧
      rep.releaseAttempted = true ∧
      (rep.releaseSucceeded = false → releaseFailureMsg ∈ rep.loggedMessages) ∧
      st'.holdsAuthority = false :=
  c7_teardown_releases_authority ⟨false, true⟩ TeardownKind.forcedDisconnect rfl

/-- Modelled from the spec: one delivered sample for a subscribed node: path,
value, server source timestamp and a logical sequence number used for
duplicate detection (missing module: the SCU library's subscription
callback). -/
structure Sample where
  nodePath : String
  value : Int
  sourceTs : Nat
  seq : Nat
deriving DecidableEq, Repr

/-- Modelled from the spec: per-node delivery state of a subscription: the
source timestamp of the last delivered sample and the sequence numbers
already delivered. -/
structure DeliveryState where
  lastTs : Option Nat
  seenSeqs : List Nat
deriving DecidableEq, Repr

/-- Modelled from the spec: admission test of the subscription delivery path.
A sample is delivered to the sinks only when its sequence number was not
already delivered and its source timestamp does not go backwards; otherwise
it is dropped (with a warning). -/
def admitSample (st : DeliveryState) (s : Sample) : Bool :=
  !(decide (s.seq ∈ st.seenSeqs)) &&
    (match st.lastTs with
     | none => true
     | some t => decide (t ≤ s.sourceTs))

/-- Delivery state after a sample has been delivered. -/
def nextDelivery (st : DeliveryState) (s : Sample) : DeliveryState :=
  ⟨some s.sourceTs, s.seq :: st.seenSeqs⟩

/-- Modelled from the spec: the stream of samples actually delivered to every
attached sink, given the incoming notification stream. -/
def deliverList (st : DeliveryState) : List Sample → List Sample
  | [] => []
  | s :: rest =>
    if admitSample st s then s :: deliverList (nextDelivery st s) rest
    else deliverList st rest

/-- Modelled from the spec: the samples dropped (with a warning) by the
delivery path, given the incoming notification stream. -/
def droppedList (st : DeliveryState) : List Sample → List Sample
  | [] => []
  | s :: rest =>
    if admitSample st s then droppedList (nextDelivery st s) rest
    else s :: droppedList st rest

theorem admitSample_spec (st : DeliveryState) (s : Sample) (h : admitSample st s = true) :
    s.seq ∉ st.seenSeqs ∧ ∀ t, st.lastTs = some t → t ≤ s.sourceTs := by
  rcases st with ⟨lt, seen⟩
  cases lt with
  | none =>
    simp only [admitSample, Bool.and_eq_true, Bool.not_eq_true', decide_eq_false_iff_not] at h
    exact ⟨h.1, fun t ht => by cases ht⟩
  | some t0 =>
    simp only [admitSample, Bool.and_eq_true, Bool.not_eq_true', decide_eq_false_iff_not,
      decide_eq_true_eq] at h
    refine ⟨h.1, fun t ht => ?_⟩
    have h' : t0 = t := by injection ht
    exact h' ▸ h.2

theorem deliverList_bounds : ∀ (inp : List Sample) (st : DeliveryState) (d : Sample),
    d ∈ deliverList st inp →
    (∀ t, st.lastTs = some t → t ≤ d.sourceTs) ∧ d.seq ∉ st.seenSeqs := by
  intro inp
  induction inp with
  | nil => intro st d hd; cases hd
  | cons s rest ih =>
    intro st d hd
    by_cases hadm : admitSample st s = true
    · rw [deliverList, if_pos hadm] at hd
      rcases List.mem_cons.mp hd with rfl | hdr
      · exact ⟨(admitSample_spec st d hadm).2, (admitSample_spec st d hadm).1⟩
      · have hrec := ih (nextDelivery st s) d hdr
        have hs := admitSample_spec st s hadm
        constructor
        · intro t ht
          exact Nat.le_trans (hs.2 t ht) (hrec.1 s.sourceTs rfl)
        · intro hmem
          exact hrec.2 (List.mem_cons_of_mem _ hmem)
    · rw [deliverList, if_neg hadm] at hd
      exact ih st d hd

theorem deliverList_pairwise : ∀ (inp : List Sample) (st : DeliveryState),
    List.Pairwise (fun a b => a.sourceTs ≤ b.sourceTs) (deliverList st inp) := by
  intro inp
  induction inp with
  | nil => intro st; exact List.Pairwise.nil
  | cons s rest ih =>
    intro st
    by_cases hadm : admitSample st s = true
    · rw [deliverList, if_pos hadm]
      refine List.pairwise_cons.mpr ⟨?_, ih _⟩
      intro d hd
      exact (deliverList_bounds rest (nextDelivery st s) d hd).1 s.sourceTs rfl
    · rw [deliverList, if_neg hadm]; exact ih st

theorem deliverList_nodup_seq : ∀ (inp : List Sample) (st : DeliveryState),
    ((deliverList st inp).map Sample.seq).Nodup := by
  intro inp
  induction inp with
  | nil => intro st; exact List.nodup_nil
  | cons s rest ih =>
    intro st
    by_cases hadm : admitSample st s = true
    · rw [deliverList, if_pos hadm, List.map_cons]
      refine List.nodup_cons.mpr ⟨?_, ih _⟩
      intro hmem
      rcases List.mem_map.mp hmem with ⟨d, hd, hseq⟩
      have h2 := (deliverList_bounds rest (nextDelivery st s) d hd).2
      exact h2 (by rw [hseq]; exact List.mem_cons_self _ _)
    · rw [deliverList, if_neg hadm]; exact ih st

theorem deliver_drop_partition : ∀ (inp : List Sample) (st : DeliveryState),
    (deliverList st inp).length + (droppedList st inp).length = inp.length := by
  intro inp
  induction inp with
  | nil => intro st; rfl
  | cons s rest ih =>
    intro st
    by_cases hadm : admitSample st s = true
    · rw [deliverList, droppedList, if_pos hadm, if_pos hadm]
      have h := ih (nextDelivery st s)
      simp only [List.length_cons]
      omega
    · rw [deliverList, droppedList, if_neg hadm, if_neg hadm]
      have h := ih st
      simp only [List.length_cons]
      omega

/-- Delivery state of a freshly created subscription. -/
def initialDelivery : DeliveryState := ⟨none, []⟩

/-- Sanity check of the delivery filter on a concrete stream: the duplicate
sequence number 2 and the backwards timestamp sample (seq 4, ts 5) are
dropped, the rest is delivered in order. -/
theorem deliverList_demo :
    deliverList initialDelivery
      [⟨"n", 1, 10, 1⟩, ⟨"n", 2, 12, 2⟩, ⟨"n", 3, 13, 2⟩, ⟨"n", 4, 5, 4⟩, ⟨"n", 5, 13, 5⟩] =
      [⟨"n", 1, 10, 1⟩, ⟨"n", 2, 12, 2⟩, ⟨"n", 5, 13, 5⟩] := by decide

/-- C2: over any incoming notification stream for one node under one
subscription, the samples observed by every attached sink have non-decreasing
source timestamps, no sequence number is delivered twice, and every incoming
sample is either delivered or dropped (with a warning) — never both, never
lost otherwise. -/
theorem c2_delivery_ordered_dedup (inp : List Sample) :
    List.Pairwise (fun a b => a.sourceTs ≤ b.sourceTs) (deliverList initialDelivery inp) ∧
    ((deliverList initialDelivery inp).map Sample.seq).Nodup ∧
    (deliverList initialDelivery inp).length + (droppedList initialDelivery inp).length
      = inp.length :=
  ⟨deliverList_pairwise inp initialDelivery, deliverList_nodup_seq inp initialDelivery,
    deliver_drop_partition inp initialDelivery⟩

/-- Modelled from the spec: the events a data-logging session reacts to: a
sample delivered by the subscription manager, a periodic flush of the staging
buffer to the output file, and the Stop call (missing module: the DataLogger
class; CHANGELOG 0.4.0 wait_for_completion squashed into stop). -/
inductive LogEvent where
  | accept (s : Sample)
  | flushTick
  | stopCmd
deriving DecidableEq, Repr

/-- Modelled from the spec: one data-logging run: the in-memory staging
buffer, the samples already persisted to the output file, and whether the
session has been stopped. -/
structure LogSession where
  buffer : List Sample
  file : List Sample
  stopped : Bool
deriving DecidableEq, Repr

/-- Modelled from the spec: one step of the logging session. Accepting a
sample appends it to the staging buffer; a flush tick moves the buffer into
the file; Stop performs (waits for) the final flush and closes the session.
A stopped session ignores every further event, so a second Stop is a no-op. -/
def logStep (ls : LogSession) : LogEvent → LogSession
  | LogEvent.accept s => if ls.stopped then ls else ⟨ls.buffer ++ [s], ls.file, ls.stopped⟩
  | LogEvent.flushTick => if ls.stopped then ls else ⟨[], ls.file ++ ls.buffer, ls.stopped⟩
  | LogEvent.stopCmd => if ls.stopped then ls else ⟨[], ls.file ++ ls.buffer, true⟩

/-- Run of a logging session over a sequence of events. -/
def runLog (ls : LogSession) : List LogEvent → LogSession
  | [] => ls
  | e :: evs => runLog (logStep ls e) evs

/-- Samples a single event makes the session accept (none once stopped). -/
def acceptedStep (ls : LogSession) : LogEvent → List Sample
  | LogEvent.accept s => if ls.stopped then [] else [s]
  | _ => []

/-- All samples the session accepts over a sequence of events. -/
def acceptedDuring (ls : LogSession) : List LogEvent → List Sample
  | [] => []
  | e :: evs => acceptedStep ls e ++ acceptedDuring (logStep ls e) evs

/-- A freshly started logging session. -/
def startSession : LogSession := ⟨[], [], false⟩

theorem runLog_append (evs1 evs2 : List LogEvent) : ∀ ls : LogSession,
    runLog ls (evs1 ++ evs2) = runLog (runLog ls evs1) evs2 := by
  induction evs1 with
  | nil => intro ls; rfl
  | cons e t ih => intro ls; exact ih (logStep ls e)

theorem logStep_content (ls : LogSession) (e : LogEvent) :
    (logStep ls e).file ++ (logStep ls e).buffer =
      ls.file ++ ls.buffer ++ acceptedStep ls e := by
  cases e with
  | accept s =>
    by_cases hst : ls.stopped = true
    · simp [logStep, acceptedStep, hst]
    · simp [logStep, acceptedStep, hst]
  | flushTick =>
    by_cases hst : ls.stopped = true
    · simp [logStep, acceptedStep, hst]
    · simp [logStep, acceptedStep, hst]
  | stopCmd =>
    by_cases hst : ls.stopped = true
    · simp [logStep, acceptedStep, hst]
    · simp [logStep, acceptedStep, hst]

theorem runLog_content : ∀ (evs : List LogEvent) (ls : LogSession),
    (runLog ls evs).file ++ (runLog ls evs).buffer =
      ls.file ++ ls.buffer ++ acceptedDuring ls evs := by
  intro evs
  induction evs with
  | nil => intro ls; simp [runLog, acceptedDuring]
  | cons e evs ih =>
    intro ls
    rw [runLog, acceptedDuring, ih (logStep ls e), logStep_content]
    simp [List.append_assoc]

theorem logStep_stopped_buffer (ls : LogSession) (e : LogEvent)
    (h : ls.stopped = true → ls.buffer = []) :
    (logStep ls e).stopped = true → (logStep ls e).buffer = [] := by
  cases e with
  | accept s =>
    by_cases hst : ls.stopped = true
    · simpa [logStep, hst] using h
    · simp [logStep, hst]
  | flushTick =>
    by_cases hst : ls.stopped = true
    · simpa [logStep, hst] using h
    · simp [logStep, hst]
  | stopCmd =>
    by_cases hst : ls.stopped = true
    · simpa [logStep, hst] using h
    · simp [logStep, hst]

theorem runLog_stopped_buffer : ∀ (evs : List LogEvent) (ls : LogSession),
    (ls.stopped = true → ls.buffer = []) →
    (runLog ls evs).stopped = true → (runLog ls evs).buffer = [] := by
  intro evs
  induction evs with
  | nil => intro ls h; exact h
  | cons e t ih => intro ls h; exact ih (logStep ls e) (logStep_stopped_buffer ls e h)

/-- C3: when Stop returns, every sample the logger accepted before Stop was
observed is present in the persisted output file. Stop performs (and thereby
waits for) the final flush of the staging buffer inside `logStep`, so nothing
accepted earlier can be missing; if the session was already stopped, the
buffer is provably empty and the file already holds everything. -/
theorem c3_stop_flushes_all (evs : List LogEvent) (s : Sample)
    (hs : s ∈ acceptedDuring startSession evs) :
    s ∈ (runLog startSession (evs ++ [LogEvent.stopCmd])).file := by
  rw [runLog_append]
  have hcontent : (runLog startSession evs).file ++ (runLog startSession evs).buffer =
      acceptedDuring startSession evs := by
    simpa [startSession] using runLog_content evs startSession
  have hmem : s ∈ (runLog startSession evs).file ++ (runLog startSession evs).buffer :=
    hcontent ▸ hs
  show s ∈ (logStep (runLog startSession evs) LogEvent.stopCmd).file
  by_cases hst : (runLog startSession evs).stopped = true
  · have hbuf : (runLog startSession evs).buffer = [] :=
      runLog_stopped_buffer evs startSession (fun _ => rfl) hst
    have hid : logStep (runLog startSession evs) LogEvent.stopCmd = runLog startSession evs := by
      simp [logStep, hst]
    rw [hid]
    rwa [hbuf, List.append_nil] at hmem
  · have hfile : (logStep (runLog startSession evs) LogEvent.stopCmd).file =
        (runLog startSession evs).file ++ (runLog startSession evs).buffer := by
      simp [logStep, hst]
    rw [hfile]
    exact hmem

theorem c3_stop_flushes_all_witness :
    (⟨"n", 2, 12, 2⟩ : Sample) ∈ acceptedDuring startSession
      [LogEvent.accept ⟨"n", 1, 10, 1⟩, LogEvent.flushTick, LogEvent.accept ⟨"n", 2, 12, 2⟩] ∧
    (⟨"n", 2, 12, 2⟩ : Sample) ∈ (runLog startSession
      ([LogEvent.accept ⟨"n", 1, 10, 1⟩, LogEvent.flushTick, LogEvent.accept ⟨"n", 2, 12, 2⟩] ++
        [LogEvent.stopCmd])).file :=
  ⟨by decide,
    c3_stop_flushes_all
      [LogEvent.accept ⟨"n", 1, 10, 1⟩, LogEvent.flushTick, LogEvent.accept ⟨"n", 2, 12, 2⟩]
      ⟨"n", 2, 12, 2⟩ (by decide)⟩

/-- Modelled from the spec: the registry's commands view resolves a symbolic
command path to its method descriptor; the dispatcher only knows the expected
argument count (missing module: the SCU library's command dispatcher). -/
structure MethodDescriptor where
  path : String
  arity : Nat
deriving DecidableEq, Repr

/-- Modelled from the spec: the closed result-code taxonomy owned by the wire
protocol, passed through to callers unmodified. -/
inductive CmdResult where
  | commandDone
  | commandActivated
  | commandRejected
  | commandFailed
  | notAllowed
deriving DecidableEq, Repr

/-- Client-side failures of command dispatch: the only client-side rejection
of a resolvable command is a wrong argument count. -/
inductive DispatchError where
  | unknownCommand (path : String)
  | wrongArgCount (expected got : Nat)
deriving DecidableEq, Repr

/-- Resolution of a command path in the commands view. -/
def findCommand (cmds : List MethodDescriptor) (path : String) : Option MethodDescriptor :=
  cmds.find? fun m => m.path == path

/-- Modelled from the spec: `Invoke(commandPath, args...)`. The dispatcher
resolves the path, validates only the argument count, then forwards the
argument values opaquely to the transport's call (`serverCall`) and returns
the server's result unmodified. The value type `V` and the server result type
`R` are arbitrary: the dispatcher can neither inspect argument types or
ranges nor rewrite the server's result code. -/
def invokeCommand {V R : Type} (cmds : List MethodDescriptor)
    (serverCall : String → List V → R) (path : String) (args : List V) :
    Except DispatchError R :=
  match findCommand cmds path with
  | none => Except.error (DispatchError.unknownCommand path)
  | some m =>
    if args.length = m.arity then Except.ok (serverCall path args)
    else Except.error (DispatchError.wrongArgCount m.arity args.length)

/-- C8: for a resolvable command, dispatch succeeds exactly when the argument
count matches, in which case the result is literally the server's response on
the very argument list given (opaque forwarding, result code unmodified); a
count mismatch is the only client-side rejection. Universally quantifying the
server call and the value type encodes that no type or range validation can
happen client-side. -/
theorem c8_invoke_arity_only {V R : Type} (cmds : List MethodDescriptor)
    (serverCall : String → List V → R) (path : String) (args : List V)
    (m : MethodDescriptor) (hfind : findCommand cmds path = some m) :
    (args.length = m.arity →
      invokeCommand cmds serverCall path args = Except.ok (serverCall path args)) ∧
    (args.length ≠ m.arity →
      invokeCommand cmds serverCall path args =
        Except.error (DispatchError.wrongArgCount m.arity args.length)) := by
  constructor
  · intro h; simp [invokeCommand, hfind, h]
  · intro h; simp [invokeCommand, hfind, h]

/-- Demonstration commands view and server used by the dispatch witness. -/
def demoCommands : List MethodDescriptor :=
  [⟨"Management.Slew2AbsAzEl", 4⟩, ⟨"Management.Stop", 1⟩]

/-- Demonstration transport call echoing the path and arguments it received. -/
def demoServerCall (path : String) (args : List Int) : CmdResult × String × List Int :=
  (CmdResult.commandActivated, path, args)

theorem c8_invoke_arity_only_witness :
    invokeCommand demoCommands demoServerCall "Management.Slew2AbsAzEl" [182, 21, 1, 2] =
      Except.ok (demoServerCall "Management.Slew2AbsAzEl" [182, 21, 1, 2]) ∧
    invokeCommand demoCommands demoServerCall "Management.Stop" [] =
      Except.error (DispatchError.wrongArgCount 1 0) :=
  ⟨(c8_invoke_arity_only demoCommands demoServerCall "Management.Slew2AbsAzEl" [182, 21, 1, 2]
      ⟨"Management.Slew2AbsAzEl", 4⟩ (by decide)).1 rfl,
   (c8_invoke_arity_only demoCommands demoServerCall "Management.Stop" []
      ⟨"Management.Stop", 1⟩ (by decide)).2 (by decide)⟩

/-- Modelled from the spec: the parameters of the monitored-item request the
subscription manager sends to the server for one node (missing module:
`SCU.subscribe`, CHANGELOG WOM-694). A sampling interval of 0 requests the
server's default (fastest supported) sampling rate. -/
structure MonitoredItemRequest where
  samplingInterval : Nat
  queueSize : Nat
  discardOldest : Bool
deriving DecidableEq, Repr

/-- Modelled from the spec: how `Subscribe` configures server-side sampling
for one node. With `bufferSamples` the server samples at its default rate and
queues every intermediate sample, the queue sized from the server-advertised
minimum supported sample rate; without it only the latest value at each
publishing-interval tick is kept (queue of one, coalescing). -/
def monitoredItemFor (minSampleRate publishingInterval : Nat) (bufferSamples : Bool) :
    MonitoredItemRequest :=
  if bufferSamples then
    ⟨0, publishingInterval / minSampleRate + 1, true⟩
  else
    ⟨publishingInterval, 1, true⟩

theorem chain_spaced_last (rate : Nat) : ∀ (ts : List Nat) (t u : Nat),
    List.Chain' (fun x y => x + rate ≤ y) (t :: ts) →
    (t :: ts).getLast? = some u → t + ts.length * rate ≤ u := by
  intro ts
  induction ts with
  | nil =>
    intro t u _ hlast
    have h' : t = u := by simpa using hlast
    simp [h']
  | cons v rest ih =>
    intro t u hchain hlast
    rcases List.chain'_cons.mp hchain with ⟨htv, hchain'⟩
    have hlast' : (v :: rest).getLast? = some u := by
      simpa [List.getLast?_cons_cons] using hlast
    have hrec := ih v u hchain' hlast'
    have : t + (rest.length + 1) * rate = t + rate + rest.length * rate := by ring
    simp only [List.length_cons, this]
    omega

theorem window_capacity (rate interval a : Nat) (hrate : 0 < rate) :
    ∀ ts : List Nat, List.Chain' (fun x y => x + rate ≤ y) ts →
    (∀ t ∈ ts, a ≤ t ∧ t < a + interval) →
    ts.length ≤ interval / rate + 1 := by
  intro ts hchain hin
  cases ts with
  | nil => simp
  | cons t rest =>
    have hne : t :: rest ≠ ([] : List Nat) := by simp
    have hlast : (t :: rest).getLast? = some ((t :: rest).getLast hne) :=
      List.getLast?_eq_getLast _ hne
    have hbound := chain_spaced_last rate rest t ((t :: rest).getLast hne) hchain hlast
    have hmemu : (t :: rest).getLast hne ∈ t :: rest := List.getLast_mem hne
    have hu := hin _ hmemu
    have ht := hin t (List.mem_cons_self _ _)
    have hlt : rest.length * rate < interval := by omega
    have hle : rest.length ≤ interval / rate :=
      (Nat.le_div_iff_mul_le hrate).mpr (Nat.le_of_lt hlt)
    simp only [List.length_cons]
    omega

/-- C9: with `buffer_samples` enabled the monitored item requests the server
default sampling rate (interval 0, i.e. all intermediate samples) and its
queue, sized from the server-advertised minimum supported sample rate, can
hold every burst of samples spaced at least that rate apart inside one
publishing interval, so none is dropped between deliveries; with
`buffer_samples` disabled the queue holds exactly one sample, delivering only
the latest value at each publishing-interval tick. -/
theorem c9_buffer_queue_sizing (minRate interval a : Nat) (ts : List Nat)
    (hrate : 0 < minRate)
    (hchain : List.Chain' (fun x y => x + minRate ≤ y) ts)
    (hin : ∀ t ∈ ts, a ≤ t ∧ t < a + interval) :
    ts.length ≤ (monitoredItemFor minRate interval true).queueSize ∧
    (monitoredItemFor minRate interval true).samplingInterval = 0 ∧
    (monitoredItemFor minRate interval false).queueSize = 1 := by
  refine ⟨?_, rfl, rfl⟩
  have h := window_capacity minRate interval a hrate ts hchain hin
  simpa [monitoredItemFor] using h

theorem c9_buffer_queue_sizing_witness :
    [100, 110, 120, 130].length ≤ (monitoredItemFor 10 35 true).queueSize ∧
    (monitoredItemFor 10 35 true).samplingInterval = 0 ∧
    (monitoredItemFor 10 35 false).queueSize = 1 :=
  c9_buffer_queue_sizing 10 35 100 [100, 110, 120, 130] (by decide)
    (by
      refine List.chain'_cons.mpr ⟨by omega, ?_⟩
      refine List.chain'_cons.mpr ⟨by omega, ?_⟩
      refine List.chain'_cons.mpr ⟨by omega, ?_⟩
      exact List.chain'_singleton _)
    (by decide)

/-- Modelled from the spec: status of an OPC-UA attribute write as reported
by the server. -/
inductive WriteOutcome where
  | writeOk
  | badUserAccessDenied
  | badNodeId
deriving DecidableEq, Repr

/-- Modelled from the spec: the server's handling of a write request: it
rejects writes to non-writable nodes with BadUserAccessDenied (missing
module: the OPC-UA server write service). -/
def serverWriteValue (srv : Server) (path : String) (_v : Int) : WriteOutcome :=
  match srv.info path with
  | none => WriteOutcome.badNodeId
  | some ni => if ni.writable then WriteOutcome.writeOk else WriteOutcome.badUserAccessDenied

/-- Modelled from the spec: the public attributes dictionary's value setter
(`scu.attributes[path].value = v`). It forwards the write to the server
unconditionally — no client-side writability check — and returns the server's
outcome to the caller. -/
def attributeSetValue (srv : Server) (path : String) (v : Int) : WriteOutcome :=
  serverWriteValue srv path v

/-- C10: writing through the attributes value setter to a node the server
reports as not writable surfaces the server's BadUserAccessDenied outcome to
the caller; the setter's result is always exactly the server's write outcome
(no client-side writability check, nothing silently dropped). -/
theorem c10_write_denied_surfaced (srv : Server) (path : String) (v : Int) (ni : ServerNode)
    (hinfo : srv.info path = some ni) (hro : ni.writable = false) :
    attributeSetValue srv path v = WriteOutcome.badUserAccessDenied ∧
    attributeSetValue srv path v = serverWriteValue srv path v := by
  refine ⟨?_, rfl⟩
  simp [attributeSetValue, serverWriteValue, hinfo, hro]

theorem c10_write_denied_surfaced_witness :
    attributeSetValue demoServer "R.a" 5 = WriteOutcome.badUserAccessDenied ∧
    attributeSetValue demoServer "R.a" 5 = serverWriteValue demoServer "R.a" 5 :=
  c10_write_denied_surfaced demoServer "R.a" 5 ⟨1, NodeClass.object, "", false⟩ (by decide) rfl

end DiSQ
